import Mathlib

/-!
Verification of the forex-factory-scraper normalization pipeline and
acquisition loop, shallowly embedded from the Python sources
(pipeline.py, parse.py, sanitize.py, to_parquet.py, scrape.py).
-/

set_option maxHeartbeats 1000000

namespace ForexFactory

/-- CanonicalEvent record shape produced by flatten_events in pipeline.py:
fields date, time_utc, currency, impact, title, id (all strings). -/
structure EventRow where
  date : String
  time_utc : String
  currency : String
  impact : String
  title : String
  id : String
deriving DecidableEq

/-- Dedup key of parse_json_to_csv / run_pipeline: a record with truthy
(non-empty) id uses the triple (id, date, time_utc); one with empty id uses
the quadruple (date, time_utc, currency, title). -/
inductive DedupKey where
  | withId (id date time : String)
  | plain (date time currency title : String)
deriving DecidableEq

/-- Key selection, mirroring the Python conditional expression
(id, date, time_utc) if r[id-field] else (date, time_utc, currency, title). -/
def dkey (r : EventRow) : DedupKey :=
  if r.id = "" then DedupKey.plain r.date r.time_utc r.currency r.title
  else DedupKey.withId r.id r.date r.time_utc

/-- Assignment d[k] = v on an insertion-ordered association list: an existing
binding of k is overwritten in place, a new key is appended at the end.  This
is the behaviour of the Python dict used for deduplication. -/
def upsert (k : DedupKey) (r : EventRow) :
    List (DedupKey × EventRow) → List (DedupKey × EventRow)
  | [] => [(k, r)]
  | (k₁, r₁) :: t => if k₁ = k then (k, r) :: t else (k₁, r₁) :: upsert k r t

/-- The dedup dict of parse_json_to_csv / run_pipeline, built by iterating
dedup[key] = r over the rows in input order. -/
def dedupPairs (rows : List EventRow) : List (DedupKey × EventRow) :=
  rows.foldl (fun acc r => upsert (dkey r) r acc) []

/-- list(dedup.values()) after the deduplication loop. -/
def dedupRows (rows : List EventRow) : List EventRow :=
  (dedupPairs rows).map Prod.snd

/-- Row-retention test of the parse loop: keep the record unless a non-empty
currency allow-set excludes its currency or a non-empty impact allow-set
excludes its impact (the two `continue` statements). -/
def keepRow (kc ki : List String) (r : EventRow) : Bool :=
  (kc.isEmpty || kc.contains r.currency) && (ki.isEmpty || ki.contains r.impact)

/-- Combined currency/impact filtering pass of parse_json_to_csv and
run_pipeline (one traversal with two `continue` guards). -/
def filterRows (kc ki : List String) (rows : List EventRow) : List EventRow :=
  rows.filter (keepRow kc ki)

/-- Currency filter on its own (first `continue` guard). -/
def filterCurrency (kc : List String) (rows : List EventRow) : List EventRow :=
  rows.filter (fun r => kc.isEmpty || kc.contains r.currency)

/-- Impact filter on its own (second `continue` guard). -/
def filterImpact (ki : List String) (rows : List EventRow) : List EventRow :=
  rows.filter (fun r => ki.isEmpty || ki.contains r.impact)

/-- Sort key comparison used by rows.sort: lexicographic on the string triple
(date, time_utc, title). -/
def sortKeyLe (a b : EventRow) : Prop :=
  a.date < b.date ∨
    (a.date = b.date ∧
      (a.time_utc < b.time_utc ∨ (a.time_utc = b.time_utc ∧ a.title ≤ b.title)))

instance : DecidableRel sortKeyLe := fun a b => by
  unfold sortKeyLe; infer_instance

instance : IsTotal EventRow sortKeyLe := by
  constructor
  intro a b
  unfold sortKeyLe
  rcases lt_trichotomy a.date b.date with h | h | h
  · exact Or.inl (Or.inl h)
  · rcases lt_trichotomy a.time_utc b.time_utc with h2 | h2 | h2
    · exact Or.inl (Or.inr ⟨h, Or.inl h2⟩)
    · rcases le_total a.title b.title with h3 | h3
      · exact Or.inl (Or.inr ⟨h, Or.inr ⟨h2, h3⟩⟩)
      · exact Or.inr (Or.inr ⟨h.symm, Or.inr ⟨h2.symm, h3⟩⟩)
    · exact Or.inr (Or.inr ⟨h.symm, Or.inl h2⟩)
  · exact Or.inr (Or.inl h)

instance : IsTrans EventRow sortKeyLe := by
  constructor
  intro a b c hab hbc
  unfold sortKeyLe at *
  rcases hab with h1 | ⟨e1, h1⟩
  · rcases hbc with h2 | ⟨e2, _⟩
    · exact Or.inl (h1.trans h2)
    · exact Or.inl (e2 ▸ h1)
  · rcases hbc with h2 | ⟨e2, h2⟩
    · exact Or.inl (e1 ▸ h2)
    · refine Or.inr ⟨e1.trans e2, ?_⟩
      rcases h1 with h1 | ⟨f1, h1⟩
      · rcases h2 with h2 | ⟨f2, _⟩
        · exact Or.inl (h1.trans h2)
        · exact Or.inl (f2 ▸ h1)
      · rcases h2 with h2 | ⟨f2, h2⟩
        · exact Or.inl (f1 ▸ h2)
        · exact Or.inr ⟨f1.trans f2, h1.trans h2⟩

/-- Stable ascending sort by (date, time_utc, title), modelling the stable
rows.sort call of the source. -/
def sortRows (rows : List EventRow) : List EventRow :=
  rows.insertionSort sortKeyLe

/-- ASCII lowercasing of one character, modelling str.lower on the
identifiers and titles the pipeline handles. -/
def asciiLower (c : Char) : Char :=
  if 65 ≤ c.toNat ∧ c.toNat ≤ 90 then Char.ofNat (c.toNat + 32) else c

/-- Lowercase a character list. -/
def lowerChars (s : List Char) : List Char :=
  s.map asciiLower

/-- Test whether the first list is an initial segment of the second. -/
def beginsWith : List Char → List Char → Bool
  | [], _ => true
  | _ :: _, [] => false
  | p :: ps, c :: cs => p = c && beginsWith ps cs

/-- Substring containment test, modelling the Python `in` operator on
strings: the pattern occurs contiguously somewhere in the text. -/
def hasSub (pat : List Char) : List Char → Bool
  | [] => beginsWith pat []
  | c :: cs => beginsWith pat (c :: cs) || hasSub pat cs

/-- Retention test of sanitize: keep the row iff the lowercased title does
not contain the substring speaks (should_keep_row in pipeline.py, keep_row in
sanitize.py). -/
def should_keep_row (r : EventRow) : Bool :=
  ! hasSub "speaks".toList (lowerChars r.title.toList)

/-- Content-exclusion pass: the list comprehension keeping rows that pass
should_keep_row. -/
def sanitizeRows (rows : List EventRow) : List EventRow :=
  rows.filter should_keep_row

/-- Configured currency allow-set (KEEP_CURRENCIES in pipeline.py). -/
def KEEP_CURRENCIES : List String := ["USD"]

/-- Configured impact allow-set (KEEP_IMPACTS in pipeline.py). -/
def KEEP_IMPACTS : List String := ["high", "holiday"]

/-- Filtering, deduplication and sort exactly as performed by
parse_json_to_csv (and by the first half of run_pipeline). -/
def parseStage (kc ki : List String) (rows : List EventRow) : List EventRow :=
  sortRows (dedupRows (filterRows kc ki rows))

/-- The Filter and Dedup Stage as the code composes it in run_pipeline:
currency/impact filters, dedup, sort, and then the speaks exclusion. -/
def filterDedupStage (kc ki : List String) (rows : List EventRow) : List EventRow :=
  sanitizeRows (parseStage kc ki rows)

/-- Modelled from the spec wording of the stage order (section 4.3 and claim
C1): currency filter, impact filter, speaks exclusion, dedup, sort. -/
def specOrderStage (kc ki : List String) (rows : List EventRow) : List EventRow :=
  sortRows (dedupRows (sanitizeRows (filterImpact ki (filterCurrency kc rows))))

/-- Demo record: an ordinary schedulable release. -/
def rowRetail : EventRow :=
  ⟨"2024-01-02", "10:00:00", "USD", "high", "Retail Sales", "7"⟩

/-- Demo record sharing the dedup key of rowRetail (same id, date, time) but
with a title containing Speaks. -/
def rowSpeaks : EventRow :=
  ⟨"2024-01-02", "10:00:00", "USD", "high", "Fed Chair Speaks", "7"⟩

/-- ASCII whitespace test by code point (space, tab, newline, vertical tab,
form feed, carriage return), modelling str.strip whitespace removal. -/
def isAsciiSpace (c : Char) : Bool :=
  decide (c.toNat = 32 ∨ c.toNat = 9 ∨ c.toNat = 10 ∨ c.toNat = 11 ∨
    c.toNat = 12 ∨ c.toNat = 13)

/-- Removal of trailing whitespace characters, structural form. -/
def rstripChars (cs : List Char) : List Char :=
  match cs with
  | [] => []
  | a :: t =>
    match rstripChars t with
    | [] => if isAsciiSpace a then [] else [a]
    | b :: u => a :: b :: u

/-- Model of str.strip: remove leading and trailing whitespace. -/
def stripChars (cs : List Char) : List Char :=
  rstripChars (cs.dropWhile isAsciiSpace)

/-- Composition strip-then-lower applied by norm_impact
(the expression with strip and lower chained on the input). -/
def trimLowerChars (cs : List Char) : List Char :=
  lowerChars (stripChars cs)

/-- Impact normalization of pipeline.py (norm_impact), char-list level: trim
and lowercase, return members of the closed set unchanged, then apply the
substring fallback rules in fixed priority order, else return the
trimmed-lowercased text. -/
def normImpactChars (s : List Char) : List Char :=
  if trimLowerChars s = "high".toList ∨ trimLowerChars s = "holiday".toList ∨
      trimLowerChars s = "medium".toList ∨ trimLowerChars s = "low".toList then
    trimLowerChars s
  else if hasSub "non-economic".toList (trimLowerChars s) ||
      hasSub "holiday".toList (trimLowerChars s) ||
      hasSub "bank".toList (trimLowerChars s) then "holiday".toList
  else if hasSub "high".toList (trimLowerChars s) ||
      hasSub "red".toList (trimLowerChars s) then "high".toList
  else if hasSub "medium".toList (trimLowerChars s) ||
      hasSub "orange".toList (trimLowerChars s) then "medium".toList
  else if hasSub "low".toList (trimLowerChars s) ||
      hasSub "yellow".toList (trimLowerChars s) then "low".toList
  else trimLowerChars s

/-- Impact normalization on an optional string; a missing value is replaced
by the empty string first, as in the Python (s or "") guard. -/
def norm_impact (s : Option String) : String :=
  String.mk (normImpactChars (s.getD "").toList)

/-- Python value reaching to_iso: the null value, a number (modelled as an
exact rational), or a string. -/
inductive PyVal where
  | null
  | num (q : ℚ)
  | str (s : String)
deriving DecidableEq

/-- Python truthiness on the values above: None, zero and the empty string
are falsy (the `if not dt_epoch` guard of to_iso). -/
def pyFalsy : PyVal → Bool
  | PyVal.null => true
  | PyVal.num q => decide (q = 0)
  | PyVal.str s => decide (s = "")

/-- Digit test by code point. -/
def isDigitChar (c : Char) : Bool :=
  48 ≤ c.toNat && c.toNat ≤ 57

/-- Value of a non-empty all-digit character list. -/
def digitsToNat : List Char → Option Nat
  | [] => Option.none
  | ds =>
    if ds.all isDigitChar then
      Option.some (ds.foldl (fun a c => 10 * a + (c.toNat - 48)) 0)
    else Option.none

/-- Unsigned decimal numeral, with an optional fractional part after one
dot. -/
def parseUnsigned (cs : List Char) : Option ℚ :=
  let ip := cs.takeWhile (fun c => c ≠ '.')
  match cs.dropWhile (fun c => c ≠ '.') with
  | [] => (digitsToNat ip).map (fun n => (n : ℚ))
  | _ :: frac =>
    match digitsToNat ip, digitsToNat frac with
    | Option.some a, Option.some b =>
      Option.some ((a : ℚ) + (b : ℚ) / ((10 : ℚ) ^ frac.length))
    | _, _ => Option.none

/-- Simplified model of the numeral strings accepted by float(): optional
sign, digits, optional fractional part.  Vacuous for the claims below except
that parse failure must yield the empty-pair fallback. -/
def parseDecimal (s : String) : Option ℚ :=
  match s.toList with
  | '-' :: rest => (parseUnsigned rest).map (fun q => -q)
  | '+' :: rest => parseUnsigned rest
  | cs => parseUnsigned cs

/-- Conversion attempted by float(dt_epoch): numbers convert to themselves,
strings parse as numerals, None fails (TypeError, caught by the except). -/
def pyFloat : PyVal → Option ℚ
  | PyVal.null => Option.none
  | PyVal.num q => Option.some q
  | PyVal.str s => parseDecimal s

/-- Millisecond heuristic of to_iso: a value above 10 billion is divided by
1000 before being interpreted as epoch seconds. -/
def adjustEpoch (ts : ℚ) : ℚ :=
  if ts > 10000000000 then ts / 1000 else ts

/-- Two-digit zero padding (strftime field). -/
def pad2 (n : Int) : String :=
  if n < 10 then "0" ++ toString n else toString n

/-- Four-digit zero padding (ISO year). -/
def pad4 (n : Int) : String :=
  if n < 10 then "000" ++ toString n
  else if n < 100 then "00" ++ toString n
  else if n < 1000 then "0" ++ toString n
  else toString n

/-- Gregorian civil date (year, month, day) from a count of days since the
Unix epoch, standard era-based algorithm. -/
def civilFromDays (z : Int) : Int × Int × Int :=
  let z2 := z + 719468
  let era := Int.fdiv z2 146097
  let doe := z2 - era * 146097
  let yoe := (doe - doe / 1460 + doe / 36524 - doe / 146096) / 365
  let y := yoe + era * 400
  let doy := doe - (365 * yoe + yoe / 4 - yoe / 100)
  let mp := (5 * doy + 2) / 153
  let d := doy - (153 * mp + 2) / 5 + 1
  let m := if mp < 10 then mp + 3 else mp - 9
  (if m ≤ 2 then y + 1 else y, m, d)

/-- UTC date and wall time strings from epoch seconds, at second precision
(the date().isoformat() and strftime outputs of to_iso); None models the
out-of-range failure of datetime.fromtimestamp, which to_iso catches. -/
def epochToDateTime (ts : ℚ) : Option (String × String) :=
  let s : Int := ⌊ts⌋
  let days := Int.fdiv s 86400
  let sod := s - days * 86400
  match civilFromDays days with
  | (y, m, d) =>
    if 1 ≤ y ∧ y ≤ 9999 then
      Option.some (pad4 y ++ "-" ++ pad2 m ++ "-" ++ pad2 d,
        pad2 (sod / 3600) ++ ":" ++ pad2 (sod % 3600 / 60) ++ ":" ++
          pad2 (sod % 60))
    else Option.none

/-- The to_iso function of pipeline.py and parse.py: falsy input yields a
pair of empty strings; otherwise convert to a number (failure caught),
apply the millisecond heuristic, convert to UTC date and time strings
(failure caught). -/
def to_iso (v : PyVal) : String × String :=
  if pyFalsy v then ("", "")
  else
    match pyFloat v with
    | Option.none => ("", "")
    | Option.some ts =>
      match epochToDateTime (adjustEpoch ts) with
      | Option.none => ("", "")
      | Option.some dt => dt

/-- Date and time pair from epoch seconds with the fallback applied (the
no-heuristic core of to_iso). -/
def epochIso (ts : ℚ) : String × String :=
  (epochToDateTime ts).getD ("", "")

/-- Raw event as read by flatten_events: every field access is a dict get
that may be absent; the timestamp is a Python value; the id get carries the
empty-string default. -/
structure RawEvent where
  currency : Option String
  impactName : Option String
  impactTitle : Option String
  prefixedName : Option String
  name : Option String
  soloTitle : Option String
  dateline : PyVal
  id : String
deriving DecidableEq

/-- Raw day holding its ordered event list (the only field flatten_events
reads). -/
structure RawDay where
  events : List RawEvent
deriving DecidableEq

/-- First truthy value of a Python or-chain over optional strings, with the
empty string as the final default. -/
def firstTruthy : List (Option String) → String
  | [] => ""
  | o :: t =>
    match o with
    | Option.some s => if s = "" then firstTruthy t else s
    | Option.none => firstTruthy t

/-- ASCII uppercasing of one character, modelling str.upper on currency
codes. -/
def asciiUpper (c : Char) : Char :=
  if 97 ≤ c.toNat ∧ c.toNat ≤ 122 then Char.ofNat (c.toNat - 32) else c

/-- Model of str.upper. -/
def upperStr (s : String) : String :=
  String.mk (s.toList.map asciiUpper)

/-- One flattened record of flatten_events: uppercased currency, impact via
norm_impact over the impactName/impactTitle chain, title as the first truthy
of the three title candidates, date and time via to_iso on the per-event
dateline, id passed through. -/
def flattenEvent (ev : RawEvent) : EventRow :=
  { date := (to_iso ev.dateline).1
    time_utc := (to_iso ev.dateline).2
    currency := upperStr (ev.currency.getD "")
    impact := norm_impact (Option.some (firstTruthy [ev.impactName, ev.impactTitle]))
    title := firstTruthy [ev.prefixedName, ev.name, ev.soloTitle]
    id := ev.id }

/-- The flatten_events generator: one record per event, in day order then
event order. -/
def flatten_events (days : List RawDay) : List EventRow :=
  (days.map (fun d => d.events.map flattenEvent)).flatten

/-- Column header of the intermediate CSV files. -/
def csvHeader : List String :=
  ["date", "time_utc", "currency", "impact", "title", "id"]

/-- One CSV data row (the DictWriter field order). -/
def recToCells (r : EventRow) : List String :=
  [r.date, r.time_utc, r.currency, r.impact, r.title, r.id]

/-- Reading one CSV data row back into a record (the DictReader view). -/
def cellsToRec : List String → Option EventRow
  | [d, t, c, i, ti, ii] => Option.some ⟨d, t, c, i, ti, ii⟩
  | _ => Option.none

/-- CSV file content as a table of cells: header row then one row per
record. -/
def writeCsv (rows : List EventRow) : List (List String) :=
  csvHeader :: rows.map recToCells

/-- Reading a CSV table: skip the header, parse each data row. -/
def readCsv (tbl : List (List String)) : List EventRow :=
  (tbl.drop 1).filterMap cellsToRec

/-- Final columnar row: date and time_utc merged into one leading UTC
datetime column, other columns in their previous order. -/
structure OutRow where
  datetime_utc : String
  currency : String
  impact : String
  title : String
  id : String
deriving DecidableEq

/-- The datetime merge of csv_to_parquet and of the tail of run_pipeline. -/
def exportRow (r : EventRow) : OutRow :=
  ⟨r.date ++ " " ++ r.time_utc, r.currency, r.impact, r.title, r.id⟩

/-- Export pass over a whole table. -/
def exportRows (rows : List EventRow) : List OutRow :=
  rows.map exportRow

/-- The in-memory composed run of run_pipeline: flatten, filter, dedup,
sort, speaks exclusion, then the datetime merge, with no intermediate
tables. -/
def run_pipeline_rows (days : List RawDay) : List OutRow :=
  exportRows (sanitizeRows (sortRows (dedupRows
    (filterRows KEEP_CURRENCIES KEEP_IMPACTS (flatten_events days)))))

/-- The parse step run standalone: filter, dedup, sort, write the
intermediate CSV. -/
def parse_step (days : List RawDay) : List (List String) :=
  writeCsv (sortRows (dedupRows
    (filterRows KEEP_CURRENCIES KEEP_IMPACTS (flatten_events days))))

/-- The sanitize step run standalone: read the CSV, drop speaks rows, write
the cleaned CSV. -/
def sanitize_step (tbl : List (List String)) : List (List String) :=
  writeCsv (sanitizeRows (readCsv tbl))

/-- The export step run standalone: read the CSV and merge the datetime
column. -/
def export_step (tbl : List (List String)) : List OutRow :=
  exportRows (readCsv tbl)

/-- Calendar date triple, as used by the scraper through datetime.date. -/
structure Date where
  year : Nat
  month : Nat
  day : Nat
deriving DecidableEq

/-- Date comparison of datetime.date: lexicographic on year, month, day. -/
def dateLeb (a b : Date) : Bool :=
  decide (a.year < b.year) ||
    (decide (a.year = b.year) &&
      (decide (a.month < b.month) ||
        (decide (a.month = b.month) && decide (a.day ≤ b.day))))

/-- Gregorian leap year rule. -/
def isLeap (y : Nat) : Bool :=
  (decide (y % 4 = 0) && decide (y % 100 ≠ 0)) || decide (y % 400 = 0)

/-- Days in a Gregorian month. -/
def daysInMonth (y m : Nat) : Nat :=
  if m = 2 then (if isLeap y then 29 else 28)
  else if m = 4 ∨ m = 6 ∨ m = 9 ∨ m = 11 then 30
  else 31

/-- Successor day in the datetime.date range; adding a day past 9999-12-31
overflows (datetime.date raises OverflowError). -/
def succDate (d : Date) : Option Date :=
  if d.day < daysInMonth d.year d.month then
    Option.some ⟨d.year, d.month, d.day + 1⟩
  else if d.month < 12 then Option.some ⟨d.year, d.month + 1, 1⟩
  else if d.year < 9999 then Option.some ⟨d.year + 1, 1, 1⟩
  else Option.none

/-- Addition of a timedelta of n days, by iterated successor. -/
def addDays : Nat → Date → Option Date
  | 0, d => Option.some d
  | n + 1, d => (succDate d).bind (addDays n)

/-- The month-advance expression of month_iter: replace the day by 28, add
four days, replace the day by 1. -/
def nextMonthStart (cur : Date) : Option Date :=
  (addDays 4 ⟨cur.year, cur.month, 28⟩).map (fun d => ⟨d.year, d.month, 1⟩)

/-- Fuelled loop body of month_iter: while cur is at most the end date,
yield cur and advance; the advance is computed before the next comparison,
exactly as the generator does after each yield. -/
def monthIterGo : Nat → Date → Date → Option (List Date)
  | 0, _, _ => Option.none
  | fuel + 1, cur, stop =>
    if dateLeb cur stop then
      (nextMonthStart cur).bind
        (fun nxt => (monthIterGo fuel nxt stop).map (fun l => cur :: l))
    else Option.some []

/-- The month_iter generator, fully consumed (as build_month_pages does):
from the first of the start month, one date per month while within the end
date; None models the date-overflow exception escaping the generator.  The
fuel exceeds the 119,988 months representable by datetime.date, so it is
never the reason a run stops. -/
def month_iter (start stop : Date) : Option (List Date) :=
  monthIterGo 120001 ⟨start.year, start.month, 1⟩ stop

/-- Month index: months since year zero; consecutive months differ by
one. -/
def monthIdx (d : Date) : Nat :=
  12 * d.year + d.month - 1

/-- First day of the month with the given index. -/
def monthOfIdx (i : Nat) : Date :=
  ⟨i / 12, i % 12 + 1, 1⟩

/-- The expected enumeration: first-of-month dates for every month index
from the start month through the end month. -/
def monthRange (start stop : Date) : List Date :=
  (List.range' (monthIdx start) (monthIdx stop + 1 - monthIdx start)).map
    monthOfIdx

/-- Validity of a date triple in the datetime.date range. -/
def ValidDate (d : Date) : Prop :=
  1 ≤ d.year ∧ d.year ≤ 9999 ∧ 1 ≤ d.month ∧ d.month ≤ 12 ∧ 1 ≤ d.day ∧
    d.day ≤ daysInMonth d.year d.month

instance (d : Date) : Decidable (ValidDate d) := by
  unfold ValidDate
  infer_instance

/-- English three-letter month token, lowercased (strftime %b). -/
def monthAbbrev : Nat → String
  | 1 => "jan"
  | 2 => "feb"
  | 3 => "mar"
  | 4 => "apr"
  | 5 => "may"
  | 6 => "jun"
  | 7 => "jul"
  | 8 => "aug"
  | 9 => "sep"
  | 10 => "oct"
  | 11 => "nov"
  | 12 => "dec"
  | _ => ""

/-- ForexFactory month token, e.g. jan.2021 (ff_month_token). -/
def ff_month_token (d : Date) : String :=
  monthAbbrev d.month ++ "." ++ toString d.year

/-- Month page URL of build_month_pages. -/
def pageUrl (d : Date) : String :=
  "https://www.forexfactory.com/calendar?month=" ++ ff_month_token d

/-- Month page of the scraper: anchor date and source URL. -/
structure MonthPage where
  anchor : Date
  url : String
deriving DecidableEq

/-- The build_month_pages list; None when the enumeration overflows. -/
def build_month_pages (start stop : Date) : Option (List MonthPage) :=
  (month_iter start stop).map (List.map (fun d => MonthPage.mk d (pageUrl d)))

/-- Cache file path of a schedule unit (days_YYYY_MM.json under the out
directory, strftime %Y_%m). -/
def outPath (d : Date) : String :=
  "out/days_" ++ pad4 (d.year : Int) ++ "_" ++ pad2 (d.month : Int) ++ ".json"

/-- Diagnostic screenshot path for a blocked unit (cf_block_%Y_%m.png). -/
def shotPath (d : Date) : String :=
  "out/cf_block_" ++ pad4 (d.year : Int) ++ "_" ++ pad2 (d.month : Int) ++
    ".png"

/-- Observable actions of the acquisition loop, in order: navigation,
extraction attempts (wait_and_get_days calls), screenshots, the blocking
prompt for a human continue-signal, and cache writes. -/
inductive ScrapeAct where
  | navigate (url : String)
  | extractCall (attempt : Nat)
  | screenshot (path : String)
  | promptHuman
  | save (path : String) (days : List RawDay)
deriving DecidableEq

/-- Environment of one run: the day sequence each extraction attempt for a
unit yields (wait_and_get_days result), and whether a human continue-signal
is available (input() succeeding versus raising EOFError). -/
structure ScrapeEnv where
  extract : MonthPage → Nat → List RawDay
  humanAvailable : Bool

/-- Loop state: cache files present on disk, success and failure counters,
and the trace of performed actions. -/
structure ScrapeState where
  files : List String
  success_count : Nat
  fail_count : Nat
  trace : List ScrapeAct

/-- One iteration of the acquisition loop over a unit: skip immediately when
the cache file exists; otherwise navigate, extract, on an empty yield take a
screenshot and (only when a human signal is available) prompt and retry
once, then always persist the obtained days and bump the matching
counter. -/
def processUnit (env : ScrapeEnv) (st : ScrapeState) (mp : MonthPage) :
    ScrapeState :=
  if st.files.contains (outPath mp.anchor) then st
  else
    let days0 := env.extract mp 0
    let days :=
      if days0.isEmpty && env.humanAvailable then env.extract mp 1 else days0
    let tr :=
      if days0.isEmpty then
        st.trace ++ [ScrapeAct.navigate mp.url, ScrapeAct.extractCall 0,
            ScrapeAct.screenshot (shotPath mp.anchor)] ++
          (if env.humanAvailable then
            [ScrapeAct.promptHuman, ScrapeAct.extractCall 1] else [])
      else st.trace ++ [ScrapeAct.navigate mp.url, ScrapeAct.extractCall 0]
    { files := st.files ++ [outPath mp.anchor]
      success_count := st.success_count + (if days.isEmpty then 0 else 1)
      fail_count := st.fail_count + (if days.isEmpty then 1 else 0)
      trace := tr ++ [ScrapeAct.save (outPath mp.anchor) days] }

/-- The acquisition loop over the unit queue. -/
def runLoop (env : ScrapeEnv) (st : ScrapeState) (pages : List MonthPage) :
    ScrapeState :=
  pages.foldl (processUnit env) st

/-- Demo unit for the loop theorems. -/
def demoPage : MonthPage :=
  ⟨⟨2021, 1, 1⟩, pageUrl ⟨2021, 1, 1⟩⟩

/-- Demo environment: every extraction yields nothing and no human signal is
available. -/
def demoEnv : ScrapeEnv :=
  ⟨fun _ _ => [], false⟩

lemma upsert_of_not_mem (k : DedupKey) (r : EventRow) :
    ∀ l : List (DedupKey × EventRow), k ∉ l.map Prod.fst →
      upsert k r l = l ++ [(k, r)]
  | [], _ => rfl
  | (k₁, r₁) :: t, h => by
    have hne : k₁ ≠ k := by
      intro hk; exact h (by simp [hk])
    have ht : k ∉ t.map Prod.fst := by
      intro hm; exact h (by simp [hm])
    simp [upsert, hne, upsert_of_not_mem k r t ht]

lemma upsert_map_fst (k : DedupKey) (r : EventRow) :
    ∀ l : List (DedupKey × EventRow),
      (upsert k r l).map Prod.fst =
        if k ∈ l.map Prod.fst then l.map Prod.fst else l.map Prod.fst ++ [k]
  | [] => by simp [upsert]
  | (k₁, r₁) :: t => by
    by_cases h : k₁ = k
    · simp [upsert, h]
    · have hne : ¬ (k = k₁) := fun hk => h hk.symm
      simp only [upsert, if_neg h, List.map_cons, List.mem_cons]
      rw [upsert_map_fst k r t]
      by_cases hm : k ∈ t.map Prod.fst
      · simp [hm, hne]
      · simp [hm, hne]

lemma upsert_nodup_fst (k : DedupKey) (r : EventRow)
    (l : List (DedupKey × EventRow)) (h : (l.map Prod.fst).Nodup) :
    ((upsert k r l).map Prod.fst).Nodup := by
  rw [upsert_map_fst]
  by_cases hm : k ∈ l.map Prod.fst
  · simpa [hm] using h
  · rw [if_neg hm]
    exact h.append (List.nodup_singleton k)
      (List.disjoint_singleton.mpr hm)

lemma upsert_mem_iff {k : DedupKey} {r : EventRow} :
    ∀ {l : List (DedupKey × EventRow)}, (l.map Prod.fst).Nodup →
      ∀ {p : DedupKey × EventRow},
        (p ∈ upsert k r l ↔ p = (k, r) ∨ (p ∈ l ∧ p.1 ≠ k)) := by
  intro l
  induction l with
  | nil => intro _ p; simp [upsert]
  | cons hd t ih =>
    obtain ⟨k₁, r₁⟩ := hd
    intro hnd p
    rw [List.map_cons] at hnd
    have hnd2 : (t.map Prod.fst).Nodup := (List.nodup_cons.mp hnd).2
    have hk₁ : k₁ ∉ t.map Prod.fst := (List.nodup_cons.mp hnd).1
    by_cases hk : k₁ = k
    · subst hk
      have hstep : upsert k₁ r ((k₁, r₁) :: t) = (k₁, r) :: t := by
        simp [upsert]
      rw [hstep, List.mem_cons, List.mem_cons]
      constructor
      · rintro (rfl | hp)
        · exact Or.inl rfl
        · refine Or.inr ⟨Or.inr hp, fun hq => hk₁ ?_⟩
          exact hq ▸ List.mem_map_of_mem Prod.fst hp
      · rintro (rfl | ⟨hp | hp, hne⟩)
        · exact Or.inl rfl
        · subst hp; exact absurd rfl hne
        · exact Or.inr hp
    · have hstep : upsert k r ((k₁, r₁) :: t) = (k₁, r₁) :: upsert k r t := by
        simp [upsert, hk]
      rw [hstep, List.mem_cons, ih hnd2, List.mem_cons]
      constructor
      · rintro (rfl | rfl | ⟨hp, hne⟩)
        · exact Or.inr ⟨Or.inl rfl, hk⟩
        · exact Or.inl rfl
        · exact Or.inr ⟨Or.inr hp, hne⟩
      · rintro (rfl | ⟨rfl | hp, hne⟩)
        · exact Or.inr (Or.inl rfl)
        · exact Or.inl rfl
        · exact Or.inr (Or.inr ⟨hp, hne⟩)

lemma dedupPairs_append (rows : List EventRow) (a : EventRow) :
    dedupPairs (rows ++ [a]) = upsert (dkey a) a (dedupPairs rows) := by
  simp [dedupPairs, List.foldl_append]

lemma dedupPairs_nodup_fst (rows : List EventRow) :
    ((dedupPairs rows).map Prod.fst).Nodup := by
  induction rows using List.reverseRecOn with
  | nil => simp [dedupPairs]
  | append_singleton rows a ih =>
    rw [dedupPairs_append]
    exact upsert_nodup_fst _ _ _ ih

lemma dedupPairs_spec (rows : List EventRow) :
    ∀ p ∈ dedupPairs rows,
      p.1 = dkey p.2 ∧ rows.reverse.find? (fun x => dkey x == p.1) = some p.2 := by
  induction rows using List.reverseRecOn with
  | nil => simp [dedupPairs]
  | append_singleton rows a ih =>
    intro p hp
    rw [dedupPairs_append] at hp
    rw [upsert_mem_iff (dedupPairs_nodup_fst rows)] at hp
    rw [List.reverse_append]
    rcases hp with hp | ⟨hp, hne⟩
    · subst hp
      exact ⟨rfl, by simp⟩
    · obtain ⟨h1, h2⟩ := ih p hp
      refine ⟨h1, ?_⟩
      have hhead : (dkey a == p.1) = false := by
        simp only [beq_eq_false_iff_ne, ne_eq]
        intro hq
        exact hne hq.symm
      simpa [List.find?, hhead] using h2

lemma dedupPairs_keys (rows : List EventRow) (k : DedupKey) :
    k ∈ (dedupPairs rows).map Prod.fst ↔ k ∈ rows.map dkey := by
  induction rows using List.reverseRecOn with
  | nil => simp [dedupPairs]
  | append_singleton rows a ih =>
    rw [dedupPairs_append, upsert_map_fst, List.map_append, List.map_cons,
      List.map_nil]
    by_cases hm : dkey a ∈ (dedupPairs rows).map Prod.fst
    · rw [if_pos hm]
      constructor
      · intro h
        exact List.mem_append_left _ (ih.mp h)
      · intro h
        rcases List.mem_append.mp h with h | h
        · exact ih.mpr h
        · rw [List.mem_singleton] at h
          exact h ▸ hm
    · rw [if_neg hm]
      constructor
      · intro h
        rcases List.mem_append.mp h with h | h
        · exact List.mem_append_left _ (ih.mp h)
        · exact List.mem_append_right _ h
      · intro h
        rcases List.mem_append.mp h with h | h
        · exact List.mem_append_left _ (ih.mpr h)
        · exact List.mem_append_right _ h

lemma map_dkey_dedupRows (rows : List EventRow) :
    (dedupRows rows).map dkey = (dedupPairs rows).map Prod.fst := by
  unfold dedupRows
  rw [List.map_map]
  exact List.map_congr_left fun p hp => ((dedupPairs_spec rows p hp).1).symm

lemma dedupRows_last_wins (rows : List EventRow) :
    ∀ r ∈ dedupRows rows,
      rows.reverse.find? (fun x => dkey x == dkey r) = some r := by
  intro r hr
  obtain ⟨p, hp, rfl⟩ := List.mem_map.mp hr
  obtain ⟨h1, h2⟩ := dedupPairs_spec rows p hp
  rw [← h1]
  exact h2

lemma mem_of_mem_dedupRows {rows : List EventRow} {r : EventRow}
    (h : r ∈ dedupRows rows) : r ∈ rows := by
  have := dedupRows_last_wins rows r h
  have hm := List.mem_of_find?_eq_some this
  exact List.mem_reverse.mp hm

lemma foldUpsert_of_disjoint :
    ∀ (rows : List EventRow) (acc : List (DedupKey × EventRow)),
      (rows.map dkey).Nodup →
      (∀ k ∈ rows.map dkey, k ∉ acc.map Prod.fst) →
      rows.foldl (fun a r => upsert (dkey r) r a) acc =
        acc ++ rows.map (fun r => (dkey r, r))
  | [], acc, _, _ => by simp
  | r :: t, acc, hnd, hdisj => by
    have hracc : dkey r ∉ acc.map Prod.fst := hdisj _ (by simp)
    have hnd0 : (dkey r :: t.map dkey).Nodup := by
      rw [← List.map_cons]; exact hnd
    have hnd' : (t.map dkey).Nodup := (List.nodup_cons.mp hnd0).2
    have hhead : dkey r ∉ t.map dkey := (List.nodup_cons.mp hnd0).1
    have hdisj' : ∀ k ∈ t.map dkey, k ∉ (acc ++ [(dkey r, r)]).map Prod.fst := by
      intro k hk
      simp only [List.map_append, List.mem_append, List.map_cons, List.map_nil,
        List.mem_cons]
      rintro (h | h | h)
      · exact hdisj k (by simp [hk]) h
      · exact hhead (h ▸ hk)
      · exact absurd h (List.not_mem_nil k)
    calc (r :: t).foldl (fun a x => upsert (dkey x) x a) acc
        = t.foldl (fun a x => upsert (dkey x) x a) (upsert (dkey r) r acc) := by
          simp [List.foldl_cons]
      _ = t.foldl (fun a x => upsert (dkey x) x a) (acc ++ [(dkey r, r)]) := by
          rw [upsert_of_not_mem _ _ _ hracc]
      _ = (acc ++ [(dkey r, r)]) ++ t.map (fun x => (dkey x, x)) :=
          foldUpsert_of_disjoint t _ hnd' hdisj'
      _ = acc ++ (r :: t).map (fun x => (dkey x, x)) := by simp

lemma dedupRows_eq_self {rows : List EventRow}
    (h : (rows.map dkey).Nodup) : dedupRows rows = rows := by
  unfold dedupRows dedupPairs
  rw [foldUpsert_of_disjoint rows [] h (by simp), List.nil_append,
    List.map_map]
  exact (List.map_congr_left fun a _ => rfl).trans (List.map_id rows)

lemma sortRows_sorted (rows : List EventRow) :
    (sortRows rows).Sorted sortKeyLe :=
  List.sorted_insertionSort sortKeyLe rows

lemma sortRows_perm (rows : List EventRow) : List.Perm (sortRows rows) rows :=
  List.perm_insertionSort sortKeyLe rows

lemma parseStage_sorted (kc ki : List String) (rows : List EventRow) :
    (parseStage kc ki rows).Sorted sortKeyLe :=
  sortRows_sorted _

lemma parseStage_nodup_dkey (kc ki : List String) (rows : List EventRow) :
    ((parseStage kc ki rows).map dkey).Nodup := by
  have hperm := (sortRows_perm (dedupRows (filterRows kc ki rows))).map dkey
  have hnd : ((dedupRows (filterRows kc ki rows)).map dkey).Nodup := by
    rw [map_dkey_dedupRows]
    exact dedupPairs_nodup_fst _
  exact hperm.symm.nodup hnd

lemma mem_parseStage {kc ki : List String} {rows : List EventRow}
    {r : EventRow} (h : r ∈ parseStage kc ki rows) :
    r ∈ rows ∧ keepRow kc ki r = true := by
  unfold parseStage sortRows at h
  rw [List.mem_insertionSort] at h
  have h2 := mem_of_mem_dedupRows h
  unfold filterRows at h2
  exact ⟨(List.mem_filter.mp h2).1, (List.mem_filter.mp h2).2⟩

lemma mem_filterDedupStage {kc ki : List String} {rows : List EventRow}
    {r : EventRow} (h : r ∈ filterDedupStage kc ki rows) :
    r ∈ parseStage kc ki rows ∧ should_keep_row r = true := by
  unfold filterDedupStage sanitizeRows at h
  exact ⟨(List.mem_filter.mp h).1, (List.mem_filter.mp h).2⟩

lemma filterDedupStage_sorted (kc ki : List String) (rows : List EventRow) :
    (filterDedupStage kc ki rows).Sorted sortKeyLe :=
  (parseStage_sorted kc ki rows).filter _

lemma filterDedupStage_nodup_dkey (kc ki : List String) (rows : List EventRow) :
    ((filterDedupStage kc ki rows).map dkey).Nodup :=
  (parseStage_nodup_dkey kc ki rows).sublist ((List.filter_sublist _).map dkey)

lemma parseStage_eq_self {kc ki : List String} {y : List EventRow}
    (hs : y.Sorted sortKeyLe) (hn : (y.map dkey).Nodup)
    (hk : ∀ r ∈ y, keepRow kc ki r = true) :
    parseStage kc ki y = y := by
  unfold parseStage filterRows sortRows
  rw [List.filter_eq_self.mpr hk, dedupRows_eq_self hn, hs.insertionSort_eq]

lemma stage_eq_self {kc ki : List String} {y : List EventRow}
    (hs : y.Sorted sortKeyLe) (hn : (y.map dkey).Nodup)
    (hk : ∀ r ∈ y, keepRow kc ki r = true)
    (hsk : ∀ r ∈ y, should_keep_row r = true) :
    filterDedupStage kc ki y = y := by
  unfold filterDedupStage sanitizeRows
  rw [parseStage_eq_self hs hn hk, List.filter_eq_self.mpr hsk]

/-- Claim C6: the Filter and Dedup Stage is idempotent.  Both the full stage
of run_pipeline (currency/impact filters, dedup, sort, speaks exclusion) and
the filter-dedup-sort portion realized by parse_json_to_csv satisfy
stage (stage rows) = stage rows, for every configuration. -/
theorem claim_C6_stage_idempotent (kc ki : List String) (rows : List EventRow) :
    filterDedupStage kc ki (filterDedupStage kc ki rows) =
      filterDedupStage kc ki rows ∧
    parseStage kc ki (parseStage kc ki rows) = parseStage kc ki rows := by
  constructor
  · apply stage_eq_self (filterDedupStage_sorted kc ki rows)
      (filterDedupStage_nodup_dkey kc ki rows)
    · intro r hr
      exact (mem_parseStage (mem_filterDedupStage hr).1).2
    · intro r hr
      exact (mem_filterDedupStage hr).2
  · apply parseStage_eq_self (parseStage_sorted kc ki rows)
      (parseStage_nodup_dkey kc ki rows)
    intro r hr
    exact (mem_parseStage hr).2

/-- Claim C6 witness: the stage applied twice to a concrete two-record input
agrees with the stage applied once. -/
theorem claim_C6_witness :
    filterDedupStage KEEP_CURRENCIES KEEP_IMPACTS
        (filterDedupStage KEEP_CURRENCIES KEEP_IMPACTS [rowSpeaks, rowRetail]) =
      filterDedupStage KEEP_CURRENCIES KEEP_IMPACTS [rowSpeaks, rowRetail] :=
  (claim_C6_stage_idempotent KEEP_CURRENCIES KEEP_IMPACTS
    [rowSpeaks, rowRetail]).1

/-- Claim C3: every record maps to exactly one dedup key chosen by id
presence; dedup retains exactly one record per distinct key, namely the last
record in input order carrying that key, and keys of distinct records are all
retained. -/
theorem claim_C3_dedup_last_write_wins (rows : List EventRow) :
    (∀ r : EventRow,
        (r.id ≠ "" → dkey r = DedupKey.withId r.id r.date r.time_utc) ∧
        (r.id = "" → dkey r = DedupKey.plain r.date r.time_utc r.currency r.title)) ∧
    ((dedupRows rows).map dkey).Nodup ∧
    (∀ k : DedupKey, k ∈ rows.map dkey ↔ k ∈ (dedupRows rows).map dkey) ∧
    (∀ r ∈ dedupRows rows,
      rows.reverse.find? (fun x => dkey x == dkey r) = some r) := by
  refine ⟨?_, ?_, ?_, dedupRows_last_wins rows⟩
  · intro r
    constructor
    · intro h
      simp [dkey, h]
    · intro h
      simp [dkey, h]
  · rw [map_dkey_dedupRows]
    exact dedupPairs_nodup_fst rows
  · intro k
    rw [map_dkey_dedupRows]
    exact (dedupPairs_keys rows k).symm

/-- Claim C3 witness: on a concrete input where two records share the id-based
key, the surviving record is the later one. -/
theorem claim_C3_witness :
    [rowRetail, rowSpeaks].reverse.find?
        (fun x => dkey x == dkey rowSpeaks) = some rowSpeaks :=
  (claim_C3_dedup_last_write_wins [rowRetail, rowSpeaks]).2.2.2 rowSpeaks
    (by decide)

/-- Claim C1 counterexample: on two records sharing an id-based dedup key
where only the later has a speaks title, the code (exclusion after dedup and
sort) drops both records, while the claimed order (exclusion before dedup)
keeps the earlier one.  So the stage output does not equal the
filter-filter-exclude-dedup-sort composition. -/
theorem claim_C1_counterexample :
    filterDedupStage KEEP_CURRENCIES KEEP_IMPACTS [rowRetail, rowSpeaks] ≠
      specOrderStage KEEP_CURRENCIES KEEP_IMPACTS [rowRetail, rowSpeaks] := by
  decide

/-- Claim C1 amended: the stage applies the currency filter, the impact
filter, deduplication and the sort, and only then the speaks content
exclusion; with exclusion placed last the stage output equals the composition
of the five passes. -/
theorem claim_C1_amended_order (kc ki : List String) (rows : List EventRow) :
    filterDedupStage kc ki rows =
      sanitizeRows (sortRows (dedupRows
        (filterImpact ki (filterCurrency kc rows)))) := by
  unfold filterDedupStage parseStage filterRows filterImpact filterCurrency
  rw [List.filter_filter]
  congr 3
  apply List.filter_congr
  intro r _
  simp [keepRow, Bool.and_comm]

lemma lowerChars_nil : lowerChars [] = [] := rfl

lemma lowerChars_cons (a : Char) (t : List Char) :
    lowerChars (a :: t) = asciiLower a :: lowerChars t := rfl

lemma rstripChars_nil : rstripChars [] = [] := rfl

lemma rstripChars_cons (a : Char) (t : List Char) :
    rstripChars (a :: t) =
      match rstripChars t with
      | [] => if isAsciiSpace a then [] else [a]
      | b :: u => a :: b :: u := rfl

lemma asciiLower_toNat (c : Char) :
    (asciiLower c).toNat =
      if 65 ≤ c.toNat ∧ c.toNat ≤ 90 then c.toNat + 32 else c.toNat := by
  unfold asciiLower
  by_cases h : 65 ≤ c.toNat ∧ c.toNat ≤ 90
  · rw [if_pos h, if_pos h]
    have hv : (c.toNat + 32).isValidChar := Or.inl (by omega)
    show (Char.ofNat (c.toNat + 32)).toNat = c.toNat + 32
    unfold Char.ofNat
    rw [dif_pos hv]
    simp [Char.ofNatAux, Char.toNat, UInt32.toNat]
  · rw [if_neg h, if_neg h]

lemma asciiLower_notUpper (c : Char) :
    ¬ (65 ≤ (asciiLower c).toNat ∧ (asciiLower c).toNat ≤ 90) := by
  rw [asciiLower_toNat]
  split <;> omega

lemma asciiLower_idem (c : Char) :
    asciiLower (asciiLower c) = asciiLower c := by
  have expand : asciiLower (asciiLower c) =
      if 65 ≤ (asciiLower c).toNat ∧ (asciiLower c).toNat ≤ 90 then
        Char.ofNat ((asciiLower c).toNat + 32)
      else asciiLower c := rfl
  rw [expand, if_neg (asciiLower_notUpper c)]

lemma isAsciiSpace_asciiLower (c : Char) :
    isAsciiSpace (asciiLower c) = isAsciiSpace c := by
  unfold isAsciiSpace
  rw [decide_eq_decide, asciiLower_toNat]
  split <;> omega

lemma lowerChars_idem (l : List Char) :
    lowerChars (lowerChars l) = lowerChars l := by
  unfold lowerChars
  rw [List.map_map]
  exact List.map_congr_left fun c _ => asciiLower_idem c

lemma dropWhile_lowerChars (l : List Char) :
    (lowerChars l).dropWhile isAsciiSpace =
      lowerChars (l.dropWhile isAsciiSpace) := by
  induction l with
  | nil => rfl
  | cons a t ih =>
    by_cases h : isAsciiSpace a = true
    · rw [lowerChars_cons, List.dropWhile_cons, List.dropWhile_cons,
        isAsciiSpace_asciiLower, if_pos h, if_pos h]
      exact ih
    · rw [lowerChars_cons, List.dropWhile_cons, List.dropWhile_cons,
        isAsciiSpace_asciiLower, if_neg h, if_neg h, lowerChars_cons]

lemma rstripChars_lowerChars (l : List Char) :
    rstripChars (lowerChars l) = lowerChars (rstripChars l) := by
  induction l with
  | nil => rfl
  | cons a t ih =>
    rw [lowerChars_cons, rstripChars_cons, rstripChars_cons, ih]
    cases hr : rstripChars t with
    | nil =>
      rw [lowerChars_nil]
      by_cases h : isAsciiSpace a = true
      · rw [isAsciiSpace_asciiLower, if_pos h, if_pos h, lowerChars_nil]
      · rw [isAsciiSpace_asciiLower, if_neg h, if_neg h, lowerChars_cons,
          lowerChars_nil]
    | cons b u =>
      rw [lowerChars_cons, lowerChars_cons, lowerChars_cons]

lemma stripChars_lowerChars (l : List Char) :
    stripChars (lowerChars l) = lowerChars (stripChars l) := by
  unfold stripChars
  rw [dropWhile_lowerChars, rstripChars_lowerChars]

lemma dropWhile_dropWhile_self (p : Char → Bool) (l : List Char) :
    (l.dropWhile p).dropWhile p = l.dropWhile p := by
  induction l with
  | nil => rfl
  | cons a t ih =>
    by_cases h : p a = true
    · rw [List.dropWhile_cons, if_pos h]
      exact ih
    · rw [List.dropWhile_cons, if_neg h, List.dropWhile_cons, if_neg h]

lemma rstripChars_idem (l : List Char) :
    rstripChars (rstripChars l) = rstripChars l := by
  induction l with
  | nil => rfl
  | cons a t ih =>
    rw [rstripChars_cons]
    cases hr : rstripChars t with
    | nil =>
      by_cases h : isAsciiSpace a = true
      · rw [if_pos h, rstripChars_nil]
      · rw [if_neg h, rstripChars_cons, rstripChars_nil, if_neg h]
    | cons b u =>
      rw [hr] at ih
      rw [rstripChars_cons, ih]

lemma dropWhile_head_shape (p : Char → Bool) (l : List Char) :
    l.dropWhile p = [] ∨
      ∃ a t, l.dropWhile p = a :: t ∧ p a = false := by
  induction l with
  | nil => exact Or.inl rfl
  | cons a t ih =>
    by_cases h : p a = true
    · rw [List.dropWhile_cons, if_pos h]
      exact ih
    · rw [List.dropWhile_cons, if_neg h]
      exact Or.inr ⟨a, t, rfl, by simpa using h⟩

lemma rstripChars_head_shape (a : Char) (t : List Char) :
    rstripChars (a :: t) = [] ∨ ∃ u, rstripChars (a :: t) = a :: u := by
  rw [rstripChars_cons]
  cases rstripChars t with
  | nil =>
    by_cases h : isAsciiSpace a = true
    · rw [if_pos h]
      exact Or.inl rfl
    · rw [if_neg h]
      exact Or.inr ⟨[], rfl⟩
  | cons b u => exact Or.inr ⟨b :: u, rfl⟩

lemma stripChars_idem (l : List Char) :
    stripChars (stripChars l) = stripChars l := by
  unfold stripChars
  have h1 : (rstripChars (l.dropWhile isAsciiSpace)).dropWhile isAsciiSpace
      = rstripChars (l.dropWhile isAsciiSpace) := by
    rcases dropWhile_head_shape isAsciiSpace l with h | ⟨a, t, ht, ha⟩
    · rw [h, rstripChars_nil]
      rfl
    · rw [ht]
      rcases rstripChars_head_shape a t with h2 | ⟨u, h2⟩
      · rw [h2]
        rfl
      · rw [h2, List.dropWhile_cons, if_neg (by simp [ha])]
  rw [h1, rstripChars_idem]

lemma trimLowerChars_idem (l : List Char) :
    trimLowerChars (trimLowerChars l) = trimLowerChars l := by
  unfold trimLowerChars
  rw [stripChars_lowerChars, stripChars_idem, lowerChars_idem]

lemma normImpactChars_shape (s : List Char) :
    normImpactChars s = "high".toList ∨ normImpactChars s = "holiday".toList ∨
    normImpactChars s = "medium".toList ∨ normImpactChars s = "low".toList ∨
    (normImpactChars s = trimLowerChars s ∧
      hasSub "non-economic".toList (trimLowerChars s) = false ∧
      hasSub "holiday".toList (trimLowerChars s) = false ∧
      hasSub "bank".toList (trimLowerChars s) = false ∧
      hasSub "high".toList (trimLowerChars s) = false ∧
      hasSub "red".toList (trimLowerChars s) = false ∧
      hasSub "medium".toList (trimLowerChars s) = false ∧
      hasSub "orange".toList (trimLowerChars s) = false ∧
      hasSub "low".toList (trimLowerChars s) = false ∧
      hasSub "yellow".toList (trimLowerChars s) = false ∧
      ¬ (trimLowerChars s = "high".toList ∨
         trimLowerChars s = "holiday".toList ∨
         trimLowerChars s = "medium".toList ∨
         trimLowerChars s = "low".toList)) := by
  unfold normImpactChars
  by_cases h0 : trimLowerChars s = "high".toList ∨
      trimLowerChars s = "holiday".toList ∨
      trimLowerChars s = "medium".toList ∨ trimLowerChars s = "low".toList
  · rw [if_pos h0]
    rcases h0 with h | h | h | h
    · exact Or.inl h
    · exact Or.inr (Or.inl h)
    · exact Or.inr (Or.inr (Or.inl h))
    · exact Or.inr (Or.inr (Or.inr (Or.inl h)))
  · rw [if_neg h0]
    by_cases h1 : (hasSub "non-economic".toList (trimLowerChars s) ||
        hasSub "holiday".toList (trimLowerChars s) ||
        hasSub "bank".toList (trimLowerChars s)) = true
    · rw [if_pos h1]
      exact Or.inr (Or.inl rfl)
    · rw [if_neg h1]
      by_cases h2 : (hasSub "high".toList (trimLowerChars s) ||
          hasSub "red".toList (trimLowerChars s)) = true
      · rw [if_pos h2]
        exact Or.inl rfl
      · rw [if_neg h2]
        by_cases h3 : (hasSub "medium".toList (trimLowerChars s) ||
            hasSub "orange".toList (trimLowerChars s)) = true
        · rw [if_pos h3]
          exact Or.inr (Or.inr (Or.inl rfl))
        · rw [if_neg h3]
          by_cases h4 : (hasSub "low".toList (trimLowerChars s) ||
              hasSub "yellow".toList (trimLowerChars s)) = true
          · rw [if_pos h4]
            exact Or.inr (Or.inr (Or.inr (Or.inl rfl)))
          · rw [if_neg h4]
            simp only [Bool.or_eq_true, not_or, Bool.not_eq_true] at h1 h2 h3 h4
            exact Or.inr (Or.inr (Or.inr (Or.inr ⟨rfl, h1.1.1, h1.1.2, h1.2,
              h2.1, h2.2, h3.1, h3.2, h4.1, h4.2, h0⟩)))

lemma normImpactChars_fix_high :
    normImpactChars "high".toList = "high".toList := by decide

lemma normImpactChars_fix_holiday :
    normImpactChars "holiday".toList = "holiday".toList := by decide

lemma normImpactChars_fix_medium :
    normImpactChars "medium".toList = "medium".toList := by decide

lemma normImpactChars_fix_low :
    normImpactChars "low".toList = "low".toList := by decide

lemma normImpactChars_idem (s : List Char) :
    normImpactChars (normImpactChars s) = normImpactChars s := by
  rcases normImpactChars_shape s with h | h | h | h | h
  · rw [h]
    exact normImpactChars_fix_high
  · rw [h]
    exact normImpactChars_fix_holiday
  · rw [h]
    exact normImpactChars_fix_medium
  · rw [h]
    exact normImpactChars_fix_low
  · obtain ⟨he, h1, h2, h3, h4, h5, h6, h7, h8, h9, h0⟩ := h
    rw [he]
    unfold normImpactChars
    rw [trimLowerChars_idem, if_neg h0, if_neg (by rw [h1, h2, h3]; decide),
      if_neg (by rw [h4, h5]; decide), if_neg (by rw [h6, h7]; decide),
      if_neg (by rw [h8, h9]; decide)]

/-- Claim C7: normalize_impact is idempotent: applying norm_impact to its own
output returns the output unchanged, for every input string. -/
theorem claim_C7_norm_impact_idempotent (x : String) :
    norm_impact (Option.some (norm_impact (Option.some x))) =
      norm_impact (Option.some x) := by
  unfold norm_impact
  rw [Option.getD_some, Option.getD_some]
  have hlist : (String.mk (normImpactChars x.toList)).toList =
      normImpactChars x.toList := rfl
  rw [hlist]
  exact congrArg String.mk (normImpactChars_idem x.toList)

lemma to_iso_num_pos (q : ℚ) (hq : 0 < q) :
    to_iso (PyVal.num q) =
      match epochToDateTime (adjustEpoch q) with
      | Option.none => ("", "")
      | Option.some dt => dt := by
  have hfal : pyFalsy (PyVal.num q) = false := by
    unfold pyFalsy
    exact decide_eq_false hq.ne'
  unfold to_iso
  rw [hfal]
  rfl

/-- Claim C4, amended: the millisecond heuristic triggers on the signed
comparison raw greater than 10 billion (not on the magnitude), and it divides
exactly once; so for such raw the result is the seconds interpretation of
raw/1000, and whenever raw also stays at most ten trillion the result equals
normalize_timestamp applied to raw/1000. -/
theorem claim_C4_amended_ms_heuristic (q : ℚ) (h1 : 10000000000 < q) :
    to_iso (PyVal.num q) = epochIso (q / 1000) ∧
    (q ≤ 10000000000000 →
      to_iso (PyVal.num q) = to_iso (PyVal.num (q / 1000))) := by
  have hpos : (0 : ℚ) < q := lt_trans (by norm_num) h1
  have hadj : adjustEpoch q = q / 1000 := by
    unfold adjustEpoch
    rw [if_pos h1]
  constructor
  · rw [to_iso_num_pos q hpos, hadj]
    unfold epochIso
    cases epochToDateTime (q / 1000) <;> rfl
  · intro h2
    have hq2 : (0 : ℚ) < q / 1000 := by positivity
    have hle : q / 1000 ≤ 10000000000 := by
      rw [div_le_iff₀ (by norm_num : (0 : ℚ) < 1000)]
      linarith
    have hadj2 : adjustEpoch (q / 1000) = q / 1000 := by
      unfold adjustEpoch
      rw [if_neg (not_lt.mpr hle)]
    rw [to_iso_num_pos q hpos, to_iso_num_pos (q / 1000) hq2, hadj, hadj2]

/-- Claim C4 witness: the millisecond input 1700000000000 and the second
input 1700000000 normalize to the identical pair. -/
theorem claim_C4_witness :
    to_iso (PyVal.num 1700000000000) = to_iso (PyVal.num 1700000000) := by
  have h := (claim_C4_amended_ms_heuristic 1700000000000
    (by norm_num)).2 (by norm_num)
  have hdiv : (1700000000000 : ℚ) / 1000 = 1700000000 := by norm_num
  rw [hdiv] at h
  exact h

/-- Claim C4 counterexample: the input twenty trillion has magnitude above
the threshold, yet normalize_timestamp on it differs from normalize_timestamp
on its thousandth, because the thousandth is itself above the threshold and
gets divided a second time. -/
theorem claim_C4_counterexample :
    (10000000000 : ℚ) < |(20000000000000 : ℚ)| ∧
    (20000000000000 : ℚ) / 1000 = 20000000000 ∧
    to_iso (PyVal.num 20000000000000) ≠ to_iso (PyVal.num 20000000000) := by
  refine ⟨by rw [abs_of_pos (by norm_num)]; norm_num, by norm_num, ?_⟩
  have e1 : to_iso (PyVal.num 20000000000000) = epochIso 20000000000 := by
    rw [to_iso_num_pos _ (by norm_num)]
    have hadj : adjustEpoch 20000000000000 = 20000000000 := by
      unfold adjustEpoch
      rw [if_pos (by norm_num)]
      norm_num
    rw [hadj]
    unfold epochIso
    cases epochToDateTime (20000000000 : ℚ) <;> rfl
  have e2 : to_iso (PyVal.num 20000000000) = epochIso 20000000 := by
    rw [to_iso_num_pos _ (by norm_num)]
    have hadj : adjustEpoch 20000000000 = 20000000 := by
      unfold adjustEpoch
      rw [if_pos (by norm_num)]
      norm_num
    rw [hadj]
    unfold epochIso
    cases epochToDateTime (20000000 : ℚ) <;> rfl
  rw [e1, e2]
  decide

/-- Claim C5: normalize_timestamp is total and deterministic: it is a
function into pairs of strings; falsy input yields the empty pair, a failed
numeric conversion yields the empty pair, and an out-of-range epoch yields
the empty pair. -/
theorem claim_C5_normalize_timestamp_total (v : PyVal) :
    (∃ out : String × String, to_iso v = out) ∧
    (pyFalsy v = true → to_iso v = ("", "")) ∧
    (pyFloat v = Option.none → to_iso v = ("", "")) ∧
    (∀ q : ℚ, pyFloat v = Option.some q →
      epochToDateTime (adjustEpoch q) = Option.none →
      to_iso v = ("", "")) := by
  refine ⟨⟨to_iso v, rfl⟩, ?_, ?_, ?_⟩
  · intro h
    unfold to_iso
    rw [if_pos h]
  · intro h
    unfold to_iso
    by_cases hf : pyFalsy v = true
    · rw [if_pos hf]
    · rw [if_neg hf, h]
  · intro q hq hn
    unfold to_iso
    by_cases hf : pyFalsy v = true
    · rw [if_pos hf]
    · rw [if_neg hf, hq]
      show (match epochToDateTime (adjustEpoch q) with
        | Option.none => ("", "")
        | Option.some dt => dt) = ("", "")
      rw [hn]

/-- Claim C5 witness: the empty pair is returned for the null value, numeric
zero, the empty string, a non-numeric string, and an out-of-range negative
epoch. -/
theorem claim_C5_witness :
    to_iso PyVal.null = ("", "") ∧
    to_iso (PyVal.num 0) = ("", "") ∧
    to_iso (PyVal.str "") = ("", "") ∧
    to_iso (PyVal.str "abc") = ("", "") ∧
    to_iso (PyVal.num (-100000000000000)) = ("", "") :=
  ⟨(claim_C5_normalize_timestamp_total PyVal.null).2.1 rfl,
   (claim_C5_normalize_timestamp_total (PyVal.num 0)).2.1 (by decide),
   (claim_C5_normalize_timestamp_total (PyVal.str "")).2.1 (by decide),
   (claim_C5_normalize_timestamp_total (PyVal.str "abc")).2.2.1 (by decide),
   (claim_C5_normalize_timestamp_total
     (PyVal.num (-100000000000000))).2.2.2 (-100000000000000) rfl (by decide)⟩

lemma cellsToRec_recToCells (r : EventRow) :
    cellsToRec (recToCells r) = Option.some r := rfl

lemma readCsv_writeCsv (rows : List EventRow) :
    readCsv (writeCsv rows) = rows := by
  unfold readCsv writeCsv
  rw [List.drop_succ_cons, List.drop_zero]
  induction rows with
  | nil => rfl
  | cons r t ih =>
    rw [List.map_cons, List.filterMap_cons, cellsToRec_recToCells, ih]

/-- Claim C2: the staged pipeline parse, then sanitize, then export, handing
tables over through intermediate CSV files, produces exactly the final table
of the composed in-memory run (flatten, filter, dedup, sort, speaks
exclusion, datetime merge); materialization does not change the result. -/
theorem claim_C2_staged_equals_composed (days : List RawDay) :
    export_step (sanitize_step (parse_step days)) = run_pipeline_rows days := by
  unfold export_step sanitize_step parse_step run_pipeline_rows
  rw [readCsv_writeCsv, readCsv_writeCsv]

/-- Claim C8: a unit whose cache file already exists is completed with no
state change at all: no navigation, no extraction call, no write, no counter
change, and the loop continues with the remaining units. -/
theorem claim_C8_cached_unit_skipped (env : ScrapeEnv) (st : ScrapeState)
    (mp : MonthPage) (rest : List MonthPage)
    (h : st.files.contains (outPath mp.anchor) = true) :
    processUnit env st mp = st ∧
    runLoop env st (mp :: rest) = runLoop env st rest := by
  have h1 : processUnit env st mp = st := by
    unfold processUnit
    rw [if_pos h]
  refine ⟨h1, ?_⟩
  unfold runLoop
  rw [List.foldl_cons, h1]

/-- Claim C8 witness: a concrete unit whose cache path is already on disk is
processed without any effect. -/
theorem claim_C8_witness :
    processUnit demoEnv ⟨[outPath ⟨2021, 1, 1⟩], 0, 0, []⟩ demoPage =
      ⟨[outPath ⟨2021, 1, 1⟩], 0, 0, []⟩ :=
  (claim_C8_cached_unit_skipped demoEnv ⟨[outPath ⟨2021, 1, 1⟩], 0, 0, []⟩
    demoPage [] (by decide)).1

/-- Claim C9: when extraction yields no days and no human continue-signal is
available, the unit completes without raising: the empty days result is
persisted to the unit's cache path, the failure counter is incremented, the
success counter is unchanged, and the loop proceeds to the next unit. -/
theorem claim_C9_empty_nonInteractive (env : ScrapeEnv) (st : ScrapeState)
    (mp : MonthPage) (rest : List MonthPage)
    (hempty : env.extract mp 0 = [])
    (hhuman : env.humanAvailable = false)
    (hnew : st.files.contains (outPath mp.anchor) = false) :
    processUnit env st mp =
      { files := st.files ++ [outPath mp.anchor]
        success_count := st.success_count
        fail_count := st.fail_count + 1
        trace := st.trace ++ [ScrapeAct.navigate mp.url,
          ScrapeAct.extractCall 0, ScrapeAct.screenshot (shotPath mp.anchor),
          ScrapeAct.save (outPath mp.anchor) []] } ∧
    runLoop env st (mp :: rest) = runLoop env (processUnit env st mp) rest := by
  constructor
  · have hmem : outPath mp.anchor ∉ st.files := by
      simpa using hnew
    simp [processUnit, hmem, hempty, hhuman]
  · unfold runLoop
    rw [List.foldl_cons]

/-- Claim C9 witness: a concrete failing unit in a non-interactive run ends
saved-empty with the failure counter at one. -/
theorem claim_C9_witness :
    processUnit demoEnv ⟨[], 0, 0, []⟩ demoPage =
      ⟨[outPath ⟨2021, 1, 1⟩], 0, 1,
        [ScrapeAct.navigate (pageUrl ⟨2021, 1, 1⟩), ScrapeAct.extractCall 0,
         ScrapeAct.screenshot (shotPath ⟨2021, 1, 1⟩),
         ScrapeAct.save (outPath ⟨2021, 1, 1⟩) []]⟩ := by
  have h := (claim_C9_empty_nonInteractive demoEnv ⟨[], 0, 0, []⟩ demoPage []
    rfl rfl (by decide)).1
  simpa [demoPage, demoEnv] using h

lemma daysInMonth_ge (y m : Nat) :
    28 ≤ daysInMonth y m ∧ daysInMonth y m ≤ 31 := by
  unfold daysInMonth
  split_ifs <;> omega

lemma validDate_mk {y m d : Nat}
    (h : 1 ≤ y ∧ y ≤ 9999 ∧ 1 ≤ m ∧ m ≤ 12 ∧ 1 ≤ d ∧ d ≤ daysInMonth y m) :
    ValidDate ⟨y, m, d⟩ := h

lemma nextMonthStart_eq {y m d : Nat} (h1 : 1 ≤ m) (h2 : m ≤ 12)
    (hne : ¬ (y = 9999 ∧ m = 12)) (hy2 : y ≤ 9999) :
    nextMonthStart ⟨y, m, d⟩ =
      Option.some (if m = 12 then ⟨y + 1, 1, 1⟩ else ⟨y, m + 1, 1⟩) := by
  interval_cases m
  · simp [nextMonthStart, addDays, succDate, daysInMonth, Option.bind]
  · by_cases hl : isLeap y = true <;>
      simp [nextMonthStart, addDays, succDate, daysInMonth, Option.bind, hl]
  · simp [nextMonthStart, addDays, succDate, daysInMonth, Option.bind]
  · simp [nextMonthStart, addDays, succDate, daysInMonth, Option.bind]
  · simp [nextMonthStart, addDays, succDate, daysInMonth, Option.bind]
  · simp [nextMonthStart, addDays, succDate, daysInMonth, Option.bind]
  · simp [nextMonthStart, addDays, succDate, daysInMonth, Option.bind]
  · simp [nextMonthStart, addDays, succDate, daysInMonth, Option.bind]
  · simp [nextMonthStart, addDays, succDate, daysInMonth, Option.bind]
  · simp [nextMonthStart, addDays, succDate, daysInMonth, Option.bind]
  · simp [nextMonthStart, addDays, succDate, daysInMonth, Option.bind]
  · have hy : y < 9999 := by omega
    simp [nextMonthStart, addDays, succDate, daysInMonth, Option.bind, hy]

lemma nextMonthStart_spec {cur : Date} (h1 : 1 ≤ cur.month)
    (h2 : cur.month ≤ 12) (hy1 : 1 ≤ cur.year) (hy2 : cur.year ≤ 9999)
    (hne : ¬ (cur.year = 9999 ∧ cur.month = 12)) :
    ∃ nxt : Date, nextMonthStart cur = Option.some nxt ∧ ValidDate nxt ∧
      nxt.day = 1 ∧ monthIdx nxt = monthIdx cur + 1 := by
  have hstep : nextMonthStart cur =
      Option.some (if cur.month = 12 then ⟨cur.year + 1, 1, 1⟩
        else ⟨cur.year, cur.month + 1, 1⟩) :=
    nextMonthStart_eq h1 h2 hne hy2
  by_cases hm : cur.month = 12
  · rw [if_pos hm] at hstep
    refine ⟨_, hstep, validDate_mk ⟨by omega, by omega, by omega, by omega,
      by omega, ?_⟩, rfl, ?_⟩
    · have hd := daysInMonth_ge (cur.year + 1) 1
      omega
    · show 12 * (cur.year + 1) + 1 - 1 = monthIdx cur + 1
      unfold monthIdx
      omega
  · rw [if_neg hm] at hstep
    refine ⟨_, hstep, validDate_mk ⟨by omega, by omega, by omega, by omega,
      by omega, ?_⟩, rfl, ?_⟩
    · have hd := daysInMonth_ge cur.year (cur.month + 1)
      omega
    · show 12 * cur.year + (cur.month + 1) - 1 = monthIdx cur + 1
      unfold monthIdx
      omega

lemma dateLeb_iff {a b : Date} :
    dateLeb a b = true ↔
      (a.year < b.year ∨ (a.year = b.year ∧ (a.month < b.month ∨
        (a.month = b.month ∧ a.day ≤ b.day)))) := by
  unfold dateLeb
  simp [Bool.or_eq_true, Bool.and_eq_true, decide_eq_true_eq]

lemma dateLeb_monthIdx {a b : Date} (hma1 : 1 ≤ a.month) (hma2 : a.month ≤ 12)
    (hmb1 : 1 ≤ b.month) (hmb2 : b.month ≤ 12) (hda : a.day = 1)
    (hdb : 1 ≤ b.day) : dateLeb a b = true ↔ monthIdx a ≤ monthIdx b := by
  rw [dateLeb_iff]
  unfold monthIdx
  omega

lemma dateLeb_monthIdx_le {a b : Date} (hma2 : a.month ≤ 12)
    (hmb1 : 1 ≤ b.month) (h : dateLeb a b = true) :
    monthIdx a ≤ monthIdx b := by
  rw [dateLeb_iff] at h
  unfold monthIdx
  omega

lemma monthOfIdx_monthIdx {d : Date} (h1 : 1 ≤ d.month) (h2 : d.month ≤ 12)
    (hd : d.day = 1) : monthOfIdx (monthIdx d) = d := by
  obtain ⟨y, m, dd⟩ := d
  replace h1 : 1 ≤ m := h1
  replace h2 : m ≤ 12 := h2
  replace hd : dd = 1 := hd
  simp only [monthOfIdx, monthIdx, Date.mk.injEq]
  refine ⟨?_, ?_, ?_⟩ <;> omega

lemma monthIdx_monthOfIdx (i : Nat) : monthIdx (monthOfIdx i) = i := by
  show 12 * (i / 12) + (i % 12 + 1) - 1 = i
  omega

lemma monthIterGo_succ (f : Nat) (cur stop : Date) :
    monthIterGo (f + 1) cur stop =
      if dateLeb cur stop then
        (nextMonthStart cur).bind
          (fun nxt => (monthIterGo f nxt stop).map (fun l => cur :: l))
      else Option.some [] := rfl

lemma monthIterGo_spec :
    ∀ (fuel : Nat) (cur stop : Date),
      ValidDate cur → cur.day = 1 → ValidDate stop →
      ¬ (stop.year = 9999 ∧ stop.month = 12) →
      monthIdx stop + 2 ≤ fuel + monthIdx cur →
      1 ≤ fuel →
      monthIterGo fuel cur stop =
        Option.some ((List.range' (monthIdx cur)
          (monthIdx stop + 1 - monthIdx cur)).map monthOfIdx) := by
  intro fuel
  induction fuel with
  | zero =>
    intro cur stop _ _ _ _ _ hf
    omega
  | succ f ih =>
    intro cur stop hvc hdc hvs hns hfuel _
    obtain ⟨hcy1, hcy2, hcm1, hcm2, hcd1, hcd2⟩ := hvc
    obtain ⟨hsy1, hsy2, hsm1, hsm2, hsd1, hsd2⟩ := hvs
    rw [monthIterGo_succ]
    by_cases hcmp : dateLeb cur stop = true
    · rw [if_pos hcmp]
      have hmile : monthIdx cur ≤ monthIdx stop :=
        (dateLeb_monthIdx hcm1 hcm2 hsm1 hsm2 hdc hsd1).mp hcmp
      have hcurne : ¬ (cur.year = 9999 ∧ cur.month = 12) := by
        unfold monthIdx at hmile
        omega
      obtain ⟨nxt, hnext, hvn, hdn, hmi⟩ :=
        nextMonthStart_spec hcm1 hcm2 hcy1 hcy2 hcurne
      rw [hnext, Option.some_bind,
        ih nxt stop hvn hdn ⟨hsy1, hsy2, hsm1, hsm2, hsd1, hsd2⟩ hns
          (by omega) (by omega),
        hmi]
      have hcnt : monthIdx stop + 1 - monthIdx cur =
          (monthIdx stop + 1 - (monthIdx cur + 1)) + 1 := by omega
      rw [hcnt, List.range'_succ, List.map_cons,
        monthOfIdx_monthIdx hcm1 hcm2 hdc]
      rfl
    · rw [if_neg hcmp]
      have hgt : ¬ monthIdx cur ≤ monthIdx stop := fun hc =>
        hcmp ((dateLeb_monthIdx hcm1 hcm2 hsm1 hsm2 hdc hsd1).mpr hc)
      have hcnt : monthIdx stop + 1 - monthIdx cur = 0 := by omega
      rw [hcnt]
      rfl

lemma chain_lt_range (n : Nat) :
    ∀ s : Nat, List.Chain' (fun a b => a < b) (List.range' s n) := by
  induction n with
  | zero =>
    intro s
    exact List.chain'_nil
  | succ k ih =>
    intro s
    rw [List.range'_succ]
    cases k with
    | zero => exact List.chain'_singleton s
    | succ j =>
      rw [List.range'_succ]
      refine List.Chain'.cons (by omega) ?_
      rw [← List.range'_succ]
      exact ih (s + 1)

/-- Claim C10 counterexample: start and end both in December 9999 satisfy
start at most end and both are valid dates, yet the enumeration fails (the
month advance past the final month overflows the date range, as
datetime.date raises OverflowError), instead of yielding the one
month. -/
theorem claim_C10_counterexample :
    dateLeb ⟨9999, 12, 1⟩ ⟨9999, 12, 31⟩ = true ∧
    ValidDate ⟨9999, 12, 1⟩ ∧ ValidDate ⟨9999, 12, 31⟩ ∧
    month_iter ⟨9999, 12, 1⟩ ⟨9999, 12, 31⟩ = Option.none := by
  refine ⟨by decide, by decide, by decide, ?_⟩
  decide

/-- Claim C10 amended: for valid dates start at most end whose end month is
not December 9999, the enumeration succeeds and yields exactly one unit per
calendar month from the month of start through the month of end, each
anchored at day one, with consecutive month indices (strictly increasing,
no duplicates, no gaps), and it is non-empty; build_month_pages wraps each
date with its page URL.  When the end month is December 9999 the advance
past the final month overflows and the enumeration raises instead. -/
theorem claim_C10_amended_month_enumeration (start stop : Date)
    (hs : ValidDate start) (he : ValidDate stop)
    (hle : dateLeb start stop = true)
    (hnm : ¬ (stop.year = 9999 ∧ stop.month = 12)) :
    month_iter start stop = Option.some (monthRange start stop) ∧
    build_month_pages start stop =
      Option.some ((monthRange start stop).map
        (fun d => MonthPage.mk d (pageUrl d))) ∧
    (∀ d ∈ monthRange start stop, d.day = 1) ∧
    (monthRange start stop).map monthIdx =
      List.range' (monthIdx start) (monthIdx stop + 1 - monthIdx start) ∧
    List.Chain' (fun a b => monthIdx a < monthIdx b) (monthRange start stop) ∧
    monthRange start stop ≠ [] := by
  obtain ⟨hsy1, hsy2, hsm1, hsm2, hsd1, hsd2⟩ := hs
  obtain ⟨hey1, hey2, hem1, hem2, hed1, hed2⟩ := he
  have hdm := daysInMonth_ge start.year start.month
  have hfv : ValidDate ⟨start.year, start.month, 1⟩ :=
    validDate_mk ⟨by omega, by omega, by omega, by omega, by omega, by omega⟩
  have hmieq : monthIdx ⟨start.year, start.month, 1⟩ = monthIdx start := rfl
  have h1 : month_iter start stop = Option.some (monthRange start stop) := by
    unfold month_iter monthRange
    rw [monthIterGo_spec 120001 ⟨start.year, start.month, 1⟩ stop hfv rfl
      ⟨hey1, hey2, hem1, hem2, hed1, hed2⟩ hnm
      (by unfold monthIdx; omega) (by omega), hmieq]
  have hcount : 1 ≤ monthIdx stop + 1 - monthIdx start := by
    have := dateLeb_monthIdx_le hsm2 hem1 hle
    omega
  refine ⟨h1, ?_, ?_, ?_, ?_, ?_⟩
  · unfold build_month_pages
    rw [h1]
    rfl
  · intro d hd
    unfold monthRange at hd
    obtain ⟨i, _, rfl⟩ := List.mem_map.mp hd
    rfl
  · unfold monthRange
    rw [List.map_map]
    exact (List.map_congr_left fun i _ => monthIdx_monthOfIdx i).trans
      (List.map_id _)
  · unfold monthRange
    rw [List.chain'_map]
    refine List.Chain'.imp ?_ (chain_lt_range _ _)
    intro a b hab
    rw [monthIdx_monthOfIdx, monthIdx_monthOfIdx]
    exact hab
  · intro hnil
    have hlen := congrArg List.length hnil
    simp only [monthRange, List.length_map, List.length_range',
      List.length_nil] at hlen
    omega

/-- Claim C10 witness: from 2020-09-01 through 2020-10-20 the enumeration is
exactly the September and October month starts. -/
theorem claim_C10_witness :
    month_iter ⟨2020, 9, 1⟩ ⟨2020, 10, 20⟩ =
      Option.some [⟨2020, 9, 1⟩, ⟨2020, 10, 1⟩] := by
  have h := (claim_C10_amended_month_enumeration ⟨2020, 9, 1⟩ ⟨2020, 10, 20⟩
    (by decide) (by decide) (by decide) (by decide)).1
  rw [h]
  decide

end ForexFactory
